import Mathlib

/-!
Shallow embedding of the SoberProfileChanger application core
(`src/main.rs`) and verification of its specification.

Strings are modelled as `List Char` (`Chars`); for the valid UTF-8 strings
the program handles, byte-wise lexicographic comparison (Rust `str::cmp`)
agrees with code-point lexicographic comparison, which is what `leChars`
implements.  Filesystem interaction is modelled by an explicit environment
(`Env`: the read-only queries the program makes) and world (`World`: the
files the program mutates).
-/

namespace Sober

abbrev Chars := List Char

def chars (s : String) : Chars := s.toList

/-- Rust `str::strip_prefix`: `some` of the remainder when the pattern is
a prefix of the string, `none` otherwise. -/
def stripPref (p s : Chars) : Option Chars :=
  if p.isPrefixOf s then some (s.drop p.length) else none

/-- Rust `str::strip_suffix`: `some` of the remainder when the pattern is
a suffix of the string, `none` otherwise. -/
def stripSuff (p s : Chars) : Option Chars :=
  if p.isSuffixOf s then some (s.take (s.length - p.length)) else none

/-- The fixed filename token `"cookies_"` (main.rs line 124). -/
def prefCookies : Chars := chars ("cookies_")

/-- The fixed extension `".txt"` (main.rs line 124). -/
def suffTxt : Chars := chars (".txt")

/-- The fallback identifier `"Unknown"` (main.rs lines 130, 135). -/
def unknownName : Chars := chars ("Unknown")

/-- The file-name filter of `load_profiles` (main.rs line 124):
`file_name.starts_with("cookies_") && (file_name.ends_with(".txt") || !file_name.contains('.'))`. -/
def matchesFilter (file_name : Chars) : Bool :=
  prefCookies.isPrefixOf file_name &&
    (suffTxt.isSuffixOf file_name || !(file_name.contains '.'))

/-- The raw-identifier derivation of `load_profiles` (main.rs
lines 126-137): strip the `"cookies_"` token and, in the `".txt"` branch,
the extension, falling back to `"Unknown"` when stripping fails. -/
def profile_name (file_name : Chars) : Chars :=
  if suffTxt.isSuffixOf file_name then
    ((stripPref prefCookies file_name).bind (fun s => stripSuff suffTxt s)).getD unknownName
  else
    (stripPref prefCookies file_name).getD unknownName

/-- Code-point lexicographic order on character lists; models Rust
`str::cmp` (byte-wise on UTF-8) as a boolean `le`. -/
def leChars : Chars → Chars → Bool
  | [], _ => true
  | _ :: _, [] => false
  | a :: as, b :: bs => if a = b then leChars as bs else decide (a < b)

/-- Stable insertion: `x` is placed before the first element `y` with
`le x y`; later-arriving equal elements therefore stay after earlier
ones. -/
def insertSorted (le : α → α → Bool) (x : α) : List α → List α
  | [] => [x]
  | y :: ys => if le x y then x :: y :: ys else y :: insertSorted le x ys

/-- Stable insertion sort.  Rust `Vec::sort_by` is a stable sort, and a
stable sort's output is uniquely determined by the comparator, so this
models `cookie_files.sort_by(|a, b| a.0.cmp(&b.0))` (main.rs line 146). -/
def sortStable (le : α → α → Bool) : List α → List α
  | [] => []
  | x :: xs => insertSorted le x (sortStable le xs)

/-- The `Profile` record (main.rs lines 23-30).  `image` is an abstract
texture handle: only its presence or absence matters to the model. -/
structure Profile where
  name : Chars
  cookie_file : Chars
  display_name : Chars
  emoji : Chars
  image : Option Unit
deriving Repr, DecidableEq

/-- The mutable fields of `SoberApp` (main.rs lines 32-40).  `sober_logo`
is an abstract texture handle. -/
structure AppState where
  profiles : List Profile
  selected_profile : Option Nat
  sober_logo : Option Unit
  error_message : Option Chars
  cookie_directory : Chars
  show_directory_dialog : Bool
  temp_directory_input : Chars
deriving Repr, DecidableEq

/-- Read-only filesystem queries the program makes.
`home` is `dirs::home_dir()`; `readConfig` is the result of
`fs::read_to_string` on the config file (`none` for `Err`); `pathExists`
is `Path::exists`; `isDir` is `Path::is_dir`; `readDir` is `fs::read_dir`
(the UTF-8 file names of the directory's entries, `none` for `Err`);
`loadImage` is `load_image_from_path` (abstract texture or `none`). -/
structure Env where
  home : Option Chars
  readConfig : Option Chars
  pathExists : Chars → Bool
  isDir : Chars → Bool
  readDir : Chars → Option (List Chars)
  loadImage : Chars → Option Unit

/-- The files the program mutates: `files` maps a path to its byte
content, `configFile` is the content of the persisted `directory.txt`. -/
structure World where
  files : Chars → Option (List Nat)
  configFile : Option Chars

/-- Rust `PathBuf::join` for a base path and a relative component:
inserts a separator unless the base already ends with one. -/
def pathJoin (a b : Chars) : Chars :=
  if a.getLast? = some '/' then a ++ b else a ++ '/' :: b

/-- Model of `SoberApp::expand_path` (main.rs lines 95-102): substitutes
the home directory for a leading `"~/"` when the home directory is
known. -/
def expand_path (home : Option Chars) (path : Chars) : Chars :=
  if (chars ("~/")).isPrefixOf path then
    match home with
    | some home_dir => pathJoin home_dir (path.drop 2)
    | none => path
  else path

/-- Rust `str::trim` (on the whitespace characters Lean's
`Char.isWhitespace` recognises). -/
def trim_chars (s : Chars) : Chars :=
  ((s.dropWhile Char.isWhitespace).reverse.dropWhile Char.isWhitespace).reverse

/-- The hardcoded default cookie directory (main.rs line 82). -/
def default_directory (home : Option Chars) : Chars :=
  expand_path home (chars ("~/.var/app/org.vinegarhq.Sober/data/sober/"))

/-- Model of `SoberApp::load_saved_directory` (main.rs lines 68-83). -/
def load_saved_directory (env : Env) : Chars :=
  match env.readConfig with
  | some content =>
    let saved_dir := trim_chars content
    if saved_dir ≠ [] then
      let expanded_path := expand_path env.home saved_dir
      if env.pathExists expanded_path then expanded_path
      else default_directory env.home
    else default_directory env.home
  | none => default_directory env.home

/-- The emoji palette of `get_profile_emoji` (main.rs line 198). -/
def emojiPalette : List Chars :=
  [chars ("🦆"), chars ("🐱"), chars ("🐶"), chars ("🐸"), chars ("🐨"),
   chars ("🦊"), chars ("🐰"), chars ("🐼"), chars ("🦁"), chars ("🐯")]

/-- Model of `SoberApp::get_profile_emoji` (main.rs lines 197-200). -/
def get_profile_emoji (index : Nat) : Chars :=
  ((emojiPalette.get? (index % emojiPalette.length)).getD (chars ("👤")))

/-- A single word of `format_profile_name`: first character upper-cased,
rest lower-cased.  Models Rust `char::to_uppercase` / `str::to_lowercase`
on the basic latin range, where both are single-character maps (Lean's
`Char.toUpper`/`Char.toLower` only act on that range). -/
def titleWord (word : Chars) : Chars :=
  match word with
  | [] => []
  | first :: rest => Char.toUpper first :: rest.map Char.toLower

/-- Helper of `split_ws`: the first argument is the input still to scan,
the second the current word accumulated in reverse. -/
def split_ws_aux : Chars → Chars → List Chars
  | [], acc => if acc = [] then [] else [acc.reverse]
  | c :: cs, acc =>
    if c.isWhitespace then
      if acc = [] then split_ws_aux cs [] else acc.reverse :: split_ws_aux cs []
    else split_ws_aux cs (c :: acc)

/-- Rust `str::split_whitespace` on character lists: the maximal runs of
non-whitespace characters, in order. -/
def split_ws (s : Chars) : List Chars := split_ws_aux s []

/-- Model of `SoberApp::format_profile_name` (main.rs lines 181-195):
replace `'_'` and `'-'` by spaces, split on whitespace, title-case each
word, join with single spaces. -/
def format_profile_name (name : Chars) : Chars :=
  List.intercalate (chars (" "))
    ((split_ws ((name.map (fun c => if c = '_' then ' ' else c)).map
        (fun c => if c = '-' then ' ' else c))).map titleWord)

/-- The filtered `(profile_name, file_name)` pairs of `load_profiles`
(main.rs lines 118-143), in directory-listing order. -/
def cookieFilesOf (entries : List Chars) : List (Chars × Chars) :=
  (entries.filter matchesFilter).map (fun file_name => (profile_name file_name, file_name))

/-- The pairs after `sort_by(|a, b| a.0.cmp(&b.0))` (main.rs line 146). -/
def sortedCookieFiles (entries : List Chars) : List (Chars × Chars) :=
  sortStable (fun a b => leChars a.1 b.1) (cookieFilesOf entries)

/-- Construction of one `Profile` (main.rs lines 149-165): the enumerate
index `i` picks the emoji, the avatar is looked up at
`cookie_directory/<lowercase(name)>.png`. -/
def mkProfile (env : Env) (dir : Chars) (i : Nat) (pn : Chars × Chars) : Profile :=
  { name := pn.1
    cookie_file := pn.2
    display_name := format_profile_name pn.1
    emoji := get_profile_emoji i
    image := env.loadImage (pathJoin dir (pn.1.map Char.toLower ++ chars (".png"))) }

/-- The profile list produced by one scan of `entries` (main.rs
lines 118-166). -/
def scanProfiles (env : Env) (dir : Chars) (entries : List Chars) : List Profile :=
  ((sortedCookieFiles entries).enum).map (fun ip => mkProfile env dir ip.1 ip.2)

/-- Diagnostic when the scan finds no profiles (main.rs lines 168-173). -/
def no_profiles_msg (dir : Chars) : Chars :=
  chars ("No cookie files found in ") ++ dir ++
    chars (". Looking for files named \x27cookies_*.txt\x27 or \x27cookies_*\x27.")

/-- Diagnostic when the directory is unreadable (main.rs line 176); the
io error text is elided. -/
def scan_error_msg (dir : Chars) : Chars :=
  chars ("Error scanning directory ") ++ dir

/-- Model of `SoberApp::load_profiles` (main.rs lines 111-179): clears
the profile list and status, rescans the cookie directory, rebuilds the
profiles, and sets a diagnostic when the scan is empty or the directory
unreadable.  It does not touch `selected_profile`. -/
def load_profiles (env : Env) (s : AppState) : AppState :=
  match env.readDir s.cookie_directory with
  | some entries =>
    let ps := scanProfiles env s.cookie_directory entries
    if ps.isEmpty then
      { s with profiles := ps, error_message := some (no_profiles_msg s.cookie_directory) }
    else
      { s with profiles := ps, error_message := none }
  | none =>
    { s with profiles := [], error_message := some (scan_error_msg s.cookie_directory) }

/-- The refresh-button click handler (main.rs lines 310-312): it only
re-runs `load_profiles`. -/
def refresh_click (env : Env) (s : AppState) : AppState :=
  load_profiles env s

/-- Status message of a successful activation (main.rs line 227). -/
def switch_ok_msg (display_name : Chars) : Chars :=
  chars ("✅ Switched to ") ++ display_name ++ chars (" profile")

/-- Status message of a failed activation (main.rs line 230); the io
error text is elided. -/
def copy_fail_msg (source_path : Chars) : Chars :=
  chars ("Failed to copy ") ++ source_path

/-- Model of `fs::copy`: succeeds and overwrites the destination with the
source's bytes exactly when the source exists; when the source cannot be
opened it fails without touching the destination. -/
def fs_copy (w : World) (src tgt : Chars) : World × Bool :=
  match w.files src with
  | some data => ({ w with files := fun p => if p = tgt then some data else w.files p }, true)
  | none => (w, false)

/-- Model of `SoberApp::copy_cookie_file` (main.rs lines 219-236):
activation of the profile at `profile_index` by copying its cookie file
over `cookie_directory/cookies`.  Only the status message records the
outcome. -/
def copy_cookie_file (w : World) (s : AppState) (profile_index : Nat) : World × AppState :=
  match s.profiles.get? profile_index with
  | some profile =>
    let source_path := pathJoin s.cookie_directory profile.cookie_file
    let target_path := pathJoin s.cookie_directory (chars ("cookies"))
    match fs_copy w source_path target_path with
    | (w1, true) => (w1, { s with error_message := some (switch_ok_msg profile.display_name) })
    | (w1, false) => (w1, { s with error_message := some (copy_fail_msg source_path) })
  | none => (w, s)

/-- The profile-tile click handler (main.rs lines 510-517): clicking the
selected profile deselects it; clicking another records the selection
first and then runs activation. -/
def profile_click (w : World) (s : AppState) (global_index : Nat) : World × AppState :=
  if s.selected_profile = some global_index then
    (w, { s with selected_profile := none })
  else
    copy_cookie_file w { s with selected_profile := some global_index } global_index

/-- Failure status of `apply_directory_change` (main.rs line 249): the
`InvalidDirectory` error. -/
def invalid_dir_msg : Chars :=
  chars ("❌ Directory does not exist or is not a directory")

/-- Success status of `apply_directory_change` (main.rs line 247). -/
def dir_changed_msg : Chars :=
  chars ("✅ Directory changed successfully")

/-- Model of `SoberApp::apply_directory_change` (main.rs lines 238-251).
`save_directory` (main.rs lines 104-109) is modelled as the write of the
new directory to the persisted config file (a writable config location;
a failed write would only be logged). -/
def apply_directory_change (env : Env) (w : World) (s : AppState) : World × AppState :=
  let new_path := expand_path env.home s.temp_directory_input
  if env.pathExists new_path && env.isDir new_path then
    let s1 := { s with cookie_directory := new_path }
    let w1 := { w with configFile := some new_path }
    let s2 := load_profiles env s1
    (w1, { s2 with selected_profile := none, show_directory_dialog := false,
                   error_message := some dir_changed_msg })
  else
    (w, { s with error_message := some invalid_dir_msg })

/-- A token that is already title-cased: one upper-case letter followed
by lower-case letters. -/
def titleToken : Chars → Bool
  | [] => false
  | u :: ls => u.isUpper && ls.all Char.isLower

/-! Concrete fixtures used by the closed theorems below. -/

/-- An environment in which nothing exists and nothing can be read. -/
def envA : Env :=
  { home := none, readConfig := none, pathExists := fun _ => false,
    isDir := fun _ => false, readDir := fun _ => none, loadImage := fun _ => none }

/-- A world with no files and no persisted preference. -/
def wEmpty : World := { files := fun _ => none, configFile := none }

/-- A directory listing mixing matching and non-matching names. -/
def entriesA : List Chars :=
  [chars ("cookies_bob"), chars ("cookies_alice.txt"), chars ("notes.log")]

/-- An environment in which exactly the directory `/new` exists and holds
one cookie file. -/
def envC2 : Env :=
  { home := none, readConfig := none,
    pathExists := fun p => decide (p = chars ("/new")),
    isDir := fun p => decide (p = chars ("/new")),
    readDir := fun p => if p = chars ("/new") then some [chars ("cookies_a")] else none,
    loadImage := fun _ => none }

/-- An app state pointing at `/old` with input `/new` and a selection. -/
def state0 : AppState :=
  { profiles := [], selected_profile := some 2, sober_logo := none,
    error_message := none, cookie_directory := chars ("/old"),
    show_directory_dialog := true, temp_directory_input := chars ("/new") }

/-- A profile whose cookie file is `cookies_a`. -/
def profA : Profile :=
  { name := chars ("a"), cookie_file := chars ("cookies_a"),
    display_name := chars ("A"), emoji := chars ("🦆"), image := none }

/-- An app state holding exactly `profA`, with no selection. -/
def sC3 : AppState :=
  { profiles := [profA], selected_profile := none, sober_logo := none,
    error_message := none, cookie_directory := chars ("/d"),
    show_directory_dialog := false, temp_directory_input := chars ("/d") }

/-- An environment whose persisted preference names an existing path
that is not a directory. -/
def envC4 : Env :=
  { home := none, readConfig := some (chars ("/tmp/f")),
    pathExists := fun p => decide (p = chars ("/tmp/f")),
    isDir := fun _ => false, readDir := fun _ => none, loadImage := fun _ => none }

/-- An environment in which the directory `/d8` is readable and holds
one cookie file. -/
def envC8 : Env :=
  { home := none, readConfig := none, pathExists := fun _ => false,
    isDir := fun _ => false,
    readDir := fun p => if p = chars ("/d8") then some [chars ("cookies_a")] else none,
    loadImage := fun _ => none }

/-- An app state at `/d8` with profile 0 selected. -/
def sC8 : AppState :=
  { profiles := [], selected_profile := some 0, sober_logo := none,
    error_message := none, cookie_directory := chars ("/d8"),
    show_directory_dialog := false, temp_directory_input := chars ("/d8") }

/-! Helper lemmas about the lexicographic order. -/

theorem leChars_refl (s : Chars) : leChars s s = true := by
  induction s with
  | nil => rfl
  | cons a as ih => simp [leChars, ih]

theorem leChars_total (a b : Chars) : leChars a b = true ∨ leChars b a = true := by
  induction a generalizing b with
  | nil => left; rfl
  | cons x xs ih =>
    cases b with
    | nil => right; rfl
    | cons y ys =>
      by_cases hxy : x = y
      · subst hxy
        simpa [leChars] using ih ys
      · rcases lt_trichotomy x y with h | h | h
        · left; simp [leChars, hxy, h]
        · exact absurd h hxy
        · right; simp [leChars, Ne.symm hxy, h]

/-! Helper lemmas about stable insertion sort. -/

theorem insertSorted_perm (le : α → α → Bool) (x : α) (l : List α) :
    (insertSorted le x l).Perm (x :: l) := by
  induction l with
  | nil => exact List.Perm.refl _
  | cons y ys ih =>
    simp only [insertSorted]
    by_cases h : le x y = true
    · simp [h]
    · simp only [h, if_false]
      exact (ih.cons y).trans (List.Perm.swap x y ys)

theorem sortStable_perm (le : α → α → Bool) (l : List α) :
    (sortStable le l).Perm l := by
  induction l with
  | nil => exact List.Perm.refl _
  | cons x xs ih => exact (insertSorted_perm le x _).trans (ih.cons x)

theorem chain'_insertSorted (le : α → α → Bool)
    (htot : ∀ a b, le a b = true ∨ le b a = true) (x : α) (l : List α)
    (h : List.Chain' (fun a b => le a b = true) l) :
    List.Chain' (fun a b => le a b = true) (insertSorted le x l) := by
  induction l with
  | nil => simp [insertSorted]
  | cons y ys ih =>
    simp only [insertSorted]
    by_cases hxy : le x y = true
    · simp only [hxy, if_true]
      exact List.chain'_cons.mpr ⟨hxy, h⟩
    · simp only [hxy, if_false]
      have hyx : le y x = true := (htot x y).resolve_left hxy
      have hins := ih h.tail
      cases ys with
      | nil =>
        simp only [insertSorted]
        exact List.chain'_cons.mpr ⟨hyx, List.chain'_singleton x⟩
      | cons z zs =>
        simp only [insertSorted] at hins ⊢
        by_cases hxz : le x z = true
        · simp only [hxz, if_true] at hins ⊢
          exact List.chain'_cons.mpr ⟨hyx, hins⟩
        · simp only [hxz, if_false] at hins ⊢
          exact List.chain'_cons.mpr ⟨(List.chain'_cons.mp h).1, hins⟩

theorem chain'_sortStable (le : α → α → Bool)
    (htot : ∀ a b, le a b = true ∨ le b a = true) (l : List α) :
    List.Chain' (fun a b => le a b = true) (sortStable le l) := by
  induction l with
  | nil => simp [sortStable]
  | cons x xs ih => exact chain'_insertSorted le htot x _ ih

theorem filter_insertSorted_pos (le : α → α → Bool) (p : α → Bool) (x : α)
    (l : List α) (hx : p x = true) (hsel : ∀ b, p b = true → le x b = true) :
    (insertSorted le x l).filter p = x :: l.filter p := by
  induction l with
  | nil => simp [insertSorted, hx]
  | cons y ys ih =>
    simp only [insertSorted]
    by_cases hxy : le x y = true
    · simp [hxy, List.filter_cons, hx]
    · have hpy : p y = false := by
        cases hy : p y
        · rfl
        · exact absurd (hsel y hy) (by simpa using hxy)
      simp [hxy, List.filter_cons, hpy, ih]

theorem filter_insertSorted_neg (le : α → α → Bool) (p : α → Bool) (x : α)
    (l : List α) (hx : p x = false) :
    (insertSorted le x l).filter p = l.filter p := by
  induction l with
  | nil => simp [insertSorted, hx]
  | cons y ys ih =>
    simp only [insertSorted]
    by_cases hxy : le x y = true
    · simp [hxy, List.filter_cons, hx]
    · simp [hxy, List.filter_cons, ih]

theorem filter_sortStable (le : α → α → Bool) (p : α → Bool)
    (hsel : ∀ a b, p a = true → p b = true → le a b = true) (l : List α) :
    (sortStable le l).filter p = l.filter p := by
  induction l with
  | nil => rfl
  | cons x xs ih =>
    simp only [sortStable]
    cases hx : p x
    · rw [filter_insertSorted_neg le p x _ hx, ih, List.filter_cons, hx]
      simp
    · rw [filter_insertSorted_pos le p x _ hx (fun b hb => hsel x b hx hb), ih,
        List.filter_cons, hx]
      simp

/-! Helper lemmas about `List.enumFrom`. -/

theorem map_map_enumFrom {β γ : Type} (f : Nat × α → β) (g : β → γ) (h : α → γ)
    (hc : ∀ (i : Nat) (a : α), g (f (i, a)) = h a) :
    ∀ (l : List α) (n : Nat), ((List.enumFrom n l).map f).map g = l.map h := by
  intro l
  induction l with
  | nil => intro n; rfl
  | cons a t ih =>
    intro n
    simp only [List.enumFrom, List.map_cons, hc, ih]

theorem snd_mem_of_mem_enumFrom {ip : Nat × α} :
    ∀ {l : List α} {n : Nat}, ip ∈ List.enumFrom n l → ip.2 ∈ l := by
  intro l
  induction l with
  | nil => intro n h; simp [List.enumFrom] at h
  | cons a t ih =>
    intro n h
    simp only [List.enumFrom, List.mem_cons] at h
    rcases h with h | h
    · subst h; simp
    · exact List.mem_cons_of_mem a (ih h)

theorem chain'_pairs_enumFrom (S : α → α → Prop) :
    ∀ (l : List α) (n : Nat), List.Chain' S l →
      List.Chain' (fun x y : Nat × α => S x.2 y.2) (List.enumFrom n l) := by
  intro l
  induction l with
  | nil => intro n _; simp [List.enumFrom]
  | cons a t ih =>
    intro n h
    cases t with
    | nil => simp [List.enumFrom]
    | cons b t2 =>
      simp only [List.enumFrom]
      exact List.chain'_cons.mpr
        ⟨(List.chain'_cons.mp h).1, ih (n + 1) (List.chain'_cons.mp h).2⟩

/-! Helper lemmas about the name derivation. -/

theorem suffTxt_isSuffixOf_drop {f : Chars}
    (hpre : prefCookies.isPrefixOf f = true)
    (hsuf : suffTxt.isSuffixOf f = true) :
    suffTxt.isSuffixOf (f.drop 8) = true := by
  rw [List.isPrefixOf_iff_prefix] at hpre
  obtain ⟨r, hr⟩ := hpre
  subst hr
  rw [List.isSuffixOf_iff_suffix] at hsuf ⊢
  obtain ⟨t, ht⟩ := hsuf
  have hd : (prefCookies ++ r).drop 8 = r := by
    have : prefCookies.length = 8 := rfl
    rw [← this, List.drop_left]
  rw [hd]
  rcases List.append_eq_append_iff.mp ht with ⟨a, ha1, ha2⟩ | ⟨c, hc1, hc2⟩
  · cases a with
    | nil =>
      refine ⟨[], ?_⟩
      simpa using ha2
    | cons c0 cs =>
      exfalso
      have hc0 : c0 = '.' := by
        have : suffTxt = c0 :: (cs ++ r) := by simpa using ha2
        exact (List.cons.injEq _ _ _ _ ▸ this.symm).1
      have hmem : ('.' : Char) ∈ prefCookies := by
        rw [ha1, hc0]
        simp
      exact absurd hmem (by decide)
  · exact ⟨c, hc2.symm⟩

theorem stripPref_of_matches {f : Chars} (h : matchesFilter f = true) :
    stripPref prefCookies f = some (f.drop 8) := by
  have hpre : prefCookies.isPrefixOf f = true := by
    simp only [matchesFilter, Bool.and_eq_true] at h
    exact h.1
  simp [stripPref, hpre]
  rfl

/-! Helper lemmas about the scanned profile list. -/

theorem scan_map_cookie_file (env : Env) (dir : Chars) (entries : List Chars) :
    (scanProfiles env dir entries).map Profile.cookie_file
      = (sortedCookieFiles entries).map Prod.snd := by
  unfold scanProfiles
  simp only [List.enum]
  exact map_map_enumFrom _ _ _ (fun i a => rfl) _ 0

theorem scan_map_name (env : Env) (dir : Chars) (entries : List Chars) :
    (scanProfiles env dir entries).map Profile.name
      = (sortedCookieFiles entries).map Prod.fst := by
  unfold scanProfiles
  simp only [List.enum]
  exact map_map_enumFrom _ _ _ (fun i a => rfl) _ 0

theorem cookieFilesOf_map_snd (entries : List Chars) :
    (cookieFilesOf entries).map Prod.snd = entries.filter matchesFilter := by
  unfold cookieFilesOf
  rw [List.map_map]
  exact List.map_id _

theorem cookieFilesOf_map_fst (entries : List Chars) :
    (cookieFilesOf entries).map Prod.fst
      = (entries.filter matchesFilter).map profile_name := by
  unfold cookieFilesOf
  rw [List.map_map]
  rfl

theorem sortedCookieFiles_pair_name (entries : List Chars) :
    ∀ pn ∈ sortedCookieFiles entries, pn.1 = profile_name pn.2 := by
  intro pn hpn
  have hmem : pn ∈ cookieFilesOf entries :=
    ((sortStable_perm _ _).mem_iff).mp hpn
  unfold cookieFilesOf at hmem
  obtain ⟨f, _, hf⟩ := List.mem_map.mp hmem
  rw [← hf]

/-! Character-level lemmas for `format_profile_name`. -/

theorem char_isUpper_toNat {c : Char} (h : c.isUpper = true) :
    65 ≤ c.toNat ∧ c.toNat ≤ 90 := by
  simp only [Char.isUpper, Bool.and_eq_true, decide_eq_true_eq] at h
  exact h

theorem char_isLower_toNat {c : Char} (h : c.isLower = true) :
    97 ≤ c.toNat ∧ c.toNat ≤ 122 := by
  simp only [Char.isLower, Bool.and_eq_true, decide_eq_true_eq] at h
  exact h

theorem char_letter_not_ws {c : Char} (h : 65 ≤ c.toNat) :
    c.isWhitespace = false := by
  have hsp : c ≠ ' ' := by
    intro e
    rw [e] at h
    exact absurd h (by decide)
  have hta : c ≠ '\t' := by
    intro e
    rw [e] at h
    exact absurd h (by decide)
  have hcr : c ≠ '\r' := by
    intro e
    rw [e] at h
    exact absurd h (by decide)
  have hnl : c ≠ '\n' := by
    intro e
    rw [e] at h
    exact absurd h (by decide)
  simp [Char.isWhitespace, hsp, hta, hcr, hnl]

theorem char_upper_props {c : Char} (h : c.isUpper = true) :
    c.toUpper = c ∧ c.isWhitespace = false ∧ c ≠ '_' ∧ c ≠ '-' := by
  obtain ⟨h1, h2⟩ := char_isUpper_toNat h
  refine ⟨?_, char_letter_not_ws h1, ?_, ?_⟩
  · simp only [Char.toUpper]
    rw [if_neg]
    omega
  · intro e
    rw [e] at h2
    exact absurd h2 (by decide)
  · intro e
    rw [e] at h1
    exact absurd h1 (by decide)

theorem char_lower_props {c : Char} (h : c.isLower = true) :
    c.toLower = c ∧ c.isWhitespace = false ∧ c ≠ '_' ∧ c ≠ '-' := by
  obtain ⟨h1, h2⟩ := char_isLower_toNat h
  refine ⟨?_, char_letter_not_ws (by omega), ?_, ?_⟩
  · simp only [Char.toLower]
    rw [if_neg]
    omega
  · intro e
    rw [e] at h1
    exact absurd h1 (by decide)
  · intro e
    rw [e] at h1
    exact absurd h1 (by decide)

theorem map_id_of_mem {α : Type} {f : α → α} :
    ∀ (l : List α), (∀ x ∈ l, f x = x) → l.map f = l := by
  intro l
  induction l with
  | nil => intro _; rfl
  | cons a t ih =>
    intro h
    simp only [List.map_cons, h a (List.mem_cons_self a t),
      ih (fun x hx => h x (List.mem_cons_of_mem a hx))]

theorem titleWord_fixed {w : Chars} (h : titleToken w = true) : titleWord w = w := by
  cases w with
  | nil => exact absurd h (by decide)
  | cons u ls =>
    simp only [titleToken, Bool.and_eq_true, List.all_eq_true] at h
    obtain ⟨hu, hls⟩ := h
    simp only [titleWord, (char_upper_props hu).1, List.cons.injEq, true_and]
    exact map_id_of_mem ls (fun c hc => (char_lower_props (hls c hc)).1)

/-! Lemmas about `split_ws` and `List.intercalate`. -/

theorem split_ws_aux_nonws {w : Chars} (hw : ∀ c ∈ w, c.isWhitespace = false) :
    ∀ (r acc : Chars), split_ws_aux (w ++ r) acc = split_ws_aux r (w.reverse ++ acc) := by
  induction w with
  | nil => intro r acc; simp
  | cons c cs ih =>
    intro r acc
    have hc : c.isWhitespace = false := hw c (List.mem_cons_self c cs)
    simp only [List.cons_append, split_ws_aux, hc, Bool.false_eq_true, if_false,
      List.append_eq]
    rw [ih (fun d hd => hw d (List.mem_cons_of_mem c hd)) r (c :: acc)]
    simp [List.reverse_cons, List.append_assoc]

theorem intercalate_cons_cons (sep w x : Chars) (t : List Chars) :
    List.intercalate sep (w :: x :: t) = w ++ sep ++ List.intercalate sep (x :: t) := by
  simp [List.intercalate, List.intersperse, List.append_assoc]

theorem intercalate_singleton (sep w : Chars) :
    List.intercalate sep [w] = w := by
  simp [List.intercalate, List.intersperse]

theorem split_ws_intercalate :
    ∀ (toks : List Chars),
      (∀ w ∈ toks, w ≠ [] ∧ ∀ c ∈ w, c.isWhitespace = false) →
      split_ws (List.intercalate (chars (" ")) toks) = toks := by
  intro toks
  induction toks with
  | nil => intro _; rfl
  | cons w t ih =>
    intro h
    obtain ⟨hw0, hwc⟩ := h w (List.mem_cons_self w t)
    cases t with
    | nil =>
      rw [intercalate_singleton]
      unfold split_ws
      have h2 : split_ws_aux (w ++ []) [] = split_ws_aux [] (w.reverse ++ []) :=
        split_ws_aux_nonws hwc [] []
      rw [List.append_nil] at h2
      rw [h2]
      have hne : w.reverse ≠ [] := by simpa using hw0
      simp [split_ws_aux, hne]
    | cons x t2 =>
      rw [intercalate_cons_cons]
      have hsep : w ++ chars (" ") ++ List.intercalate (chars (" ")) (x :: t2)
          = w ++ (' ' :: List.intercalate (chars (" ")) (x :: t2)) := by
        simp [chars, List.append_assoc]
      rw [hsep]
      unfold split_ws
      rw [split_ws_aux_nonws hwc _ []]
      have hne : w.reverse ≠ [] := by simpa using hw0
      have hwsp : (' ' : Char).isWhitespace = true := by decide
      have hrec := ih (fun v hv => h v (List.mem_cons_of_mem w hv))
      unfold split_ws at hrec
      simp [split_ws_aux, hwsp, hne, hrec]

theorem mem_intercalate_space :
    ∀ (toks : List Chars) (c : Char),
      c ∈ List.intercalate (chars (" ")) toks → c = ' ' ∨ ∃ w ∈ toks, c ∈ w := by
  intro toks
  induction toks with
  | nil => intro c hc; simp [List.intercalate] at hc
  | cons w t ih =>
    intro c hc
    cases t with
    | nil =>
      rw [intercalate_singleton] at hc
      exact Or.inr ⟨w, List.mem_cons_self w [], hc⟩
    | cons x t2 =>
      rw [intercalate_cons_cons] at hc
      rcases List.mem_append.mp hc with hc1 | hc2
      · rcases List.mem_append.mp hc1 with hcw | hcs
        · exact Or.inr ⟨w, List.mem_cons_self w _, hcw⟩
        · left
          have : chars (" ") = [' '] := rfl
          rw [this] at hcs
          simpa using hcs
      · rcases ih c hc2 with h | ⟨v, hv, hcv⟩
        · exact Or.inl h
        · exact Or.inr ⟨v, List.mem_cons_of_mem w hv, hcv⟩

/-- C1: for every enumerable directory (entry names are distinct in a real
directory), the scan's profile list holds exactly one profile per entry
whose filename starts with `cookies_` and either ends with `.txt` or has
no `.` at all — entries with other extensions or without the prefix are
excluded — each profile's `name` is the identifier derived from its
filename, and the list is ordered ascending by that identifier. -/
theorem c1_scan_exact_and_sorted (env : Env) (dir : Chars) (entries : List Chars)
    (hnd : entries.Nodup) :
    ((scanProfiles env dir entries).map Profile.cookie_file).Perm
      (entries.filter matchesFilter)
    ∧ ((scanProfiles env dir entries).map Profile.cookie_file).Nodup
    ∧ (∀ f : Chars, f ∈ (scanProfiles env dir entries).map Profile.cookie_file
        ↔ f ∈ entries ∧ matchesFilter f = true)
    ∧ (∀ p ∈ scanProfiles env dir entries, p.name = profile_name p.cookie_file)
    ∧ List.Chain' (fun p q : Profile => leChars p.name q.name = true)
        (scanProfiles env dir entries) := by
  have hperm : ((scanProfiles env dir entries).map Profile.cookie_file).Perm
      (entries.filter matchesFilter) := by
    rw [scan_map_cookie_file, ← cookieFilesOf_map_snd]
    exact (sortStable_perm _ _).map _
  have hnodup := (hperm.nodup_iff).mpr (hnd.filter _)
  refine ⟨hperm, hnodup, ?_, ?_, ?_⟩
  · intro f
    rw [hperm.mem_iff, List.mem_filter]
  · intro p hp
    unfold scanProfiles at hp
    obtain ⟨ip, hip, hpe⟩ := List.mem_map.mp hp
    have h2 : ip.2 ∈ sortedCookieFiles entries := snd_mem_of_mem_enumFrom hip
    have h3 := sortedCookieFiles_pair_name entries ip.2 h2
    rw [← hpe]
    simpa [mkProfile] using h3
  · have hchain := chain'_sortStable (fun a b : Chars × Chars => leChars a.1 b.1)
      (fun a b => leChars_total a.1 b.1) (cookieFilesOf entries)
    have h4 := chain'_pairs_enumFrom
      (fun a b : Chars × Chars => leChars a.1 b.1 = true)
      (sortedCookieFiles entries) 0 hchain
    unfold scanProfiles
    rw [List.chain'_map]
    exact h4

/-- Witness for C1 at a directory mixing matching and non-matching
names. -/
theorem c1_scan_witness :
    ((scanProfiles envA (chars ("/data")) entriesA).map Profile.cookie_file).Perm
      (entriesA.filter matchesFilter) :=
  (c1_scan_exact_and_sorted envA (chars ("/data")) entriesA (by decide)).1

/-- Amended C6: `name` values of one scan are pairwise distinct whenever
the matching filenames derive pairwise distinct identifiers; a directory
holding both `cookies_x` and `cookies_x.txt` violates that side
condition and yields two profiles with the same name (see the
counterexample). -/
theorem c6_amended_names_nodup (env : Env) (dir : Chars) (entries : List Chars)
    (h : ((entries.filter matchesFilter).map profile_name).Nodup) :
    ((scanProfiles env dir entries).map Profile.name).Nodup := by
  rw [scan_map_name]
  have hperm : ((sortedCookieFiles entries).map Prod.fst).Perm
      ((cookieFilesOf entries).map Prod.fst) := (sortStable_perm _ _).map _
  rw [cookieFilesOf_map_fst] at hperm
  exact hperm.nodup_iff.mpr h

/-- Counterexample to C6: a directory with both `cookies_x` and
`cookies_x.txt` produces two profiles both named `x`. -/
theorem c6_counterexample :
    ((scanProfiles envA (chars ("/dup"))
        [chars ("cookies_x"), chars ("cookies_x.txt")]).map Profile.name)
      = [chars ("x"), chars ("x")]
    ∧ ¬ ((scanProfiles envA (chars ("/dup"))
        [chars ("cookies_x"), chars ("cookies_x.txt")]).map Profile.name).Nodup := by
  exact ⟨by decide, by decide⟩

/-- Witness for the amended C6 at a directory with distinct
identifiers. -/
theorem c6_names_witness :
    ((scanProfiles envA (chars ("/data")) entriesA).map Profile.name).Nodup :=
  c6_amended_names_nodup envA (chars ("/data")) entriesA (by decide)

/-- Amended C7: after filtering, entries are sorted ascending by raw
identifier, and entries with equal identifiers keep their relative order
from the directory listing (the sort is stable); they are not reordered
by filename. -/
theorem c7_amended_sorted_and_stable (entries : List Chars) :
    List.Chain' (fun a b : Chars × Chars => leChars a.1 b.1 = true)
      (sortedCookieFiles entries)
    ∧ ∀ n : Chars, (sortedCookieFiles entries).filter (fun pn => decide (pn.1 = n))
        = (cookieFilesOf entries).filter (fun pn => decide (pn.1 = n)) := by
  constructor
  · unfold sortedCookieFiles
    exact chain'_sortStable (fun a b : Chars × Chars => leChars a.1 b.1)
      (fun a b => leChars_total a.1 b.1) (cookieFilesOf entries)
  · intro n
    unfold sortedCookieFiles
    refine filter_sortStable (fun a b : Chars × Chars => leChars a.1 b.1) _ ?_ _
    intro a b ha hb
    have ha2 : a.1 = n := by simpa using ha
    have hb2 : b.1 = n := by simpa using hb
    show leChars a.1 b.1 = true
    rw [ha2, hb2]
    exact leChars_refl n

/-- Counterexample to C7: listing `cookies_x.txt` before `cookies_x`
derives the identifier `x` for both; the sorted output keeps the listing
order, although `cookies_x` is lexicographically smaller than
`cookies_x.txt`, so equal identifiers are not ordered by filename. -/
theorem c7_counterexample :
    sortedCookieFiles [chars ("cookies_x.txt"), chars ("cookies_x")]
      = [(chars ("x"), chars ("cookies_x.txt")), (chars ("x"), chars ("cookies_x"))]
    ∧ leChars (chars ("cookies_x")) (chars ("cookies_x.txt")) = true
    ∧ chars ("cookies_x") ≠ chars ("cookies_x.txt") := by
  exact ⟨by decide, by decide, by decide⟩

/-- C10: on every filename accepted by the scan filter the stripping in
the name derivation succeeds — the `Unknown` fallback is unreachable —
and the derived name is the filename minus the leading `cookies_` and,
when present, minus the trailing `.txt`; the filename `cookies_` itself
yields the empty name (see the witness). -/
theorem c10_derivation_total (f : Chars) (h : matchesFilter f = true) :
    (suffTxt.isSuffixOf f = true →
      ((stripPref prefCookies f).bind (fun s => stripSuff suffTxt s)).isSome = true)
    ∧ (suffTxt.isSuffixOf f = false → (stripPref prefCookies f).isSome = true)
    ∧ profile_name f
        = (if suffTxt.isSuffixOf f then (f.drop 8).take ((f.drop 8).length - 4)
           else f.drop 8) := by
  have hpre : prefCookies.isPrefixOf f = true := by
    simp only [matchesFilter, Bool.and_eq_true] at h
    exact h.1
  have hsp := stripPref_of_matches h
  have hlen : suffTxt.length = 4 := rfl
  by_cases hsuf : suffTxt.isSuffixOf f = true
  · have hs2 := suffTxt_isSuffixOf_drop hpre hsuf
    have hss : stripSuff suffTxt (f.drop 8)
        = some ((f.drop 8).take ((f.drop 8).length - 4)) := by
      rw [stripSuff, if_pos hs2, hlen]
    refine ⟨fun _ => ?_, fun hc => absurd hsuf (by simp [hc]), ?_⟩
    · rw [hsp]
      simp [hss]
    · unfold profile_name
      rw [if_pos hsuf, if_pos hsuf, hsp]
      simp [hss]
  · refine ⟨fun hc => absurd hc hsuf, fun _ => by rw [hsp]; rfl, ?_⟩
    unfold profile_name
    rw [if_neg hsuf, if_neg hsuf, hsp]
    rfl

/-- Witness for C10 at the edge-case filename `cookies_`: it passes the
filter and derives the empty name. -/
theorem c10_edge_witness :
    matchesFilter (chars ("cookies_")) = true
    ∧ profile_name (chars ("cookies_")) = ([] : Chars) := by
  have h := (c10_derivation_total (chars ("cookies_")) (by decide)).2.2
  refine ⟨by decide, ?_⟩
  rw [h]
  decide

/-! Helper lemmas about the stateful operations. -/

theorem load_profiles_fields (env : Env) (s : AppState) :
    (load_profiles env s).cookie_directory = s.cookie_directory
    ∧ (load_profiles env s).selected_profile = s.selected_profile
    ∧ (load_profiles env s).sober_logo = s.sober_logo
    ∧ (load_profiles env s).show_directory_dialog = s.show_directory_dialog
    ∧ (load_profiles env s).temp_directory_input = s.temp_directory_input := by
  unfold load_profiles
  cases env.readDir s.cookie_directory with
  | none => simp
  | some entries =>
    by_cases hp : (scanProfiles env s.cookie_directory entries).isEmpty = true <;>
      simp [hp]

theorem copy_cookie_file_selected (w : World) (s : AppState) (i : Nat) :
    (copy_cookie_file w s i).2.selected_profile = s.selected_profile := by
  unfold copy_cookie_file
  cases s.profiles.get? i with
  | none => rfl
  | some p =>
    simp only []
    unfold fs_copy
    cases w.files (pathJoin s.cookie_directory p.cookie_file) <;> rfl

theorem copy_cookie_file_fail (w : World) (s : AppState) (i : Nat) (p : Profile)
    (hp : s.profiles.get? i = some p)
    (hsrc : w.files (pathJoin s.cookie_directory p.cookie_file) = none) :
    copy_cookie_file w s i
      = (w,
         { s with
           error_message := some (copy_fail_msg (pathJoin s.cookie_directory p.cookie_file)) }) := by
  unfold copy_cookie_file
  rw [hp]
  simp only []
  unfold fs_copy
  rw [hsrc]

/-- C2: when the expanded input path exists and is a directory, the
directory change replaces the configured directory, persists it, clears
the selection, and re-runs discovery on the new directory; otherwise it
fails with the `InvalidDirectory` status and leaves the configured
directory, the persisted preference, the profile list and the selection
untouched. -/
theorem c2_directory_change_atomic (env : Env) (w : World) (s : AppState) :
    ((env.pathExists (expand_path env.home s.temp_directory_input)
        && env.isDir (expand_path env.home s.temp_directory_input)) = true →
      (apply_directory_change env w s).2.cookie_directory
          = expand_path env.home s.temp_directory_input
      ∧ (apply_directory_change env w s).1.configFile
          = some (expand_path env.home s.temp_directory_input)
      ∧ (apply_directory_change env w s).2.selected_profile = none
      ∧ (apply_directory_change env w s).2.profiles
          = (load_profiles env
              { s with cookie_directory :=
                  expand_path env.home s.temp_directory_input }).profiles)
    ∧ ((env.pathExists (expand_path env.home s.temp_directory_input)
        && env.isDir (expand_path env.home s.temp_directory_input)) = false →
      (apply_directory_change env w s).1 = w
      ∧ (apply_directory_change env w s).2.cookie_directory = s.cookie_directory
      ∧ (apply_directory_change env w s).2.profiles = s.profiles
      ∧ (apply_directory_change env w s).2.selected_profile = s.selected_profile
      ∧ (apply_directory_change env w s).2.error_message = some invalid_dir_msg) := by
  constructor
  · intro hc
    have hl := (load_profiles_fields env
      { s with cookie_directory := expand_path env.home s.temp_directory_input }).1
    simp only [apply_directory_change, hc, if_true]
    exact ⟨by rw [hl], trivial, trivial, trivial⟩
  · intro hc
    simp [apply_directory_change, hc]

/-- Witness for C2: a valid directory is adopted, persisted and cleared
of selection; an invalid one changes nothing and reports the error. -/
theorem c2_change_witness :
    (apply_directory_change envC2 wEmpty state0).2.cookie_directory = chars ("/new")
    ∧ (apply_directory_change envC2 wEmpty state0).1.configFile = some (chars ("/new"))
    ∧ (apply_directory_change envC2 wEmpty state0).2.selected_profile = none
    ∧ (apply_directory_change envA wEmpty state0).1 = wEmpty
    ∧ (apply_directory_change envA wEmpty state0).2.error_message
        = some invalid_dir_msg := by
  have h1 := (c2_directory_change_atomic envC2 wEmpty state0).1 (by decide)
  have h2 := (c2_directory_change_atomic envA wEmpty state0).2 (by decide)
  exact ⟨h1.1.trans (by decide), h1.2.1.trans (by decide), h1.2.2.1, h2.1,
    h2.2.2.2.2⟩

/-- Amended C3: clicking the already-selected index clears the selection
without running activation — the world is untouched and no state field
but the selection changes; clicking any other index records it as the
selection before activation runs and keeps it even when activation fails
(the failure is only reported through the status message). -/
theorem c3_amended_click_behaviour (w : World) (s : AppState) (i : Nat) :
    (s.selected_profile = some i →
      (profile_click w s i).1 = w
      ∧ (profile_click w s i).2 = { s with selected_profile := none })
    ∧ (s.selected_profile ≠ some i →
      (profile_click w s i).2.selected_profile = some i
      ∧ ∀ p : Profile, s.profiles.get? i = some p →
          w.files (pathJoin s.cookie_directory p.cookie_file) = none →
          (profile_click w s i).2.error_message
            = some (copy_fail_msg (pathJoin s.cookie_directory p.cookie_file))) := by
  constructor
  · intro h
    simp [profile_click, h]
  · intro h
    constructor
    · simp only [profile_click, if_neg h]
      rw [copy_cookie_file_selected]
    · intro p hp hsrc
      simp only [profile_click, if_neg h]
      rw [copy_cookie_file_fail w _ i p (by simpa using hp) (by simpa using hsrc)]

/-- Counterexample to C3: with the profile's source file missing,
activation fails, yet the click still moves the selection from `none` to
the clicked index. -/
theorem c3_counterexample :
    sC3.selected_profile = none
    ∧ (profile_click wEmpty sC3 0).2.error_message
        = some (copy_fail_msg (pathJoin (chars ("/d")) (chars ("cookies_a"))))
    ∧ (profile_click wEmpty sC3 0).2.selected_profile = some 0 := by
  exact ⟨rfl, by decide, by decide⟩

/-- Witness for the amended C3: deselecting the selected index leaves the
world untouched, clears the selection and keeps the status; selecting
another index records it. -/
theorem c3_toggle_witness :
    (profile_click wEmpty { sC3 with selected_profile := some 0 } 0).1 = wEmpty
    ∧ (profile_click wEmpty { sC3 with selected_profile := some 0 } 0).2.selected_profile
        = none
    ∧ (profile_click wEmpty { sC3 with selected_profile := some 0 } 0).2.error_message
        = sC3.error_message
    ∧ (profile_click wEmpty sC3 0).2.selected_profile = some 0 := by
  have h1 := (c3_amended_click_behaviour wEmpty
    { sC3 with selected_profile := some 0 } 0).1 rfl
  have h2 := ((c3_amended_click_behaviour wEmpty sC3 0).2 (by decide)).1
  exact ⟨h1.1, by rw [h1.2], by rw [h1.2], h2⟩

/-- Amended C4: loading the persisted directory preference returns the
hardcoded default whenever the config file is absent, its trimmed content
is empty, or the expanded content does not name an existing path; it
returns the persisted (expanded) path exactly when that path exists —
whether or not it is a directory (the code checks only existence).  The
operation is total. -/
theorem c4_amended_load_saved (env : Env) :
    (env.readConfig = none →
      load_saved_directory env = default_directory env.home)
    ∧ (∀ c : Chars, env.readConfig = some c → trim_chars c = [] →
      load_saved_directory env = default_directory env.home)
    ∧ (∀ c : Chars, env.readConfig = some c →
      env.pathExists (expand_path env.home (trim_chars c)) = false →
      load_saved_directory env = default_directory env.home)
    ∧ (∀ c : Chars, env.readConfig = some c → trim_chars c ≠ [] →
      env.pathExists (expand_path env.home (trim_chars c)) = true →
      load_saved_directory env = expand_path env.home (trim_chars c)) := by
  refine ⟨?_, ?_, ?_, ?_⟩
  · intro h
    simp [load_saved_directory, h]
  · intro c h he
    simp [load_saved_directory, h, he]
  · intro c h he
    unfold load_saved_directory
    rw [h]
    by_cases hc : trim_chars c = []
    · simp [hc]
    · simp [hc, he]
  · intro c h hne hex
    simp [load_saved_directory, h, hne, hex]

/-- Counterexample to C4: a persisted path that exists but is not a
directory is returned as-is instead of falling back to the default. -/
theorem c4_counterexample :
    envC4.isDir (chars ("/tmp/f")) = false
    ∧ load_saved_directory envC4 = chars ("/tmp/f")
    ∧ load_saved_directory envC4 ≠ default_directory envC4.home := by
  exact ⟨rfl, by decide, by decide⟩

/-- Witness for the amended C4 at a persisted existing path. -/
theorem c4_load_witness :
    load_saved_directory envC4
      = expand_path envC4.home (trim_chars (chars ("/tmp/f"))) :=
  (c4_amended_load_saved envC4).2.2.2 (chars ("/tmp/f")) rfl (by decide) (by decide)

/-- C5: when a profile's source cookie file is missing, activation
reports the copy failure and the world — in particular the active
`cookies` file — is left byte-for-byte unchanged. -/
theorem c5_missing_source_copy_failed (w : World) (s : AppState) (i : Nat)
    (p : Profile) (hp : s.profiles.get? i = some p)
    (hsrc : w.files (pathJoin s.cookie_directory p.cookie_file) = none) :
    (copy_cookie_file w s i).1 = w
    ∧ (copy_cookie_file w s i).1.files (pathJoin s.cookie_directory (chars ("cookies")))
        = w.files (pathJoin s.cookie_directory (chars ("cookies")))
    ∧ (copy_cookie_file w s i).2.error_message
        = some (copy_fail_msg (pathJoin s.cookie_directory p.cookie_file)) := by
  rw [copy_cookie_file_fail w s i p hp hsrc]
  exact ⟨rfl, rfl, rfl⟩

/-- Witness for C5 at a state whose only profile's source is missing. -/
theorem c5_fail_witness :
    (copy_cookie_file wEmpty sC3 0).1 = wEmpty
    ∧ (copy_cookie_file wEmpty sC3 0).2.error_message
        = some (copy_fail_msg (pathJoin (chars ("/d")) (chars ("cookies_a")))) := by
  have h := c5_missing_source_copy_failed wEmpty sC3 0 profA (by decide) rfl
  exact ⟨h.1, h.2.2⟩

/-- Amended C8: the selection is reset to `none` when a directory change
succeeds; a bare rescan — including the refresh action — leaves the
selected-profile state unchanged. -/
theorem c8_amended_selection_reset (env : Env) (w : World) (s : AppState) :
    (refresh_click env s).selected_profile = s.selected_profile
    ∧ ((env.pathExists (expand_path env.home s.temp_directory_input)
        && env.isDir (expand_path env.home s.temp_directory_input)) = true →
      (apply_directory_change env w s).2.selected_profile = none) := by
  constructor
  · exact (load_profiles_fields env s).2.1
  · intro hc
    simp [apply_directory_change, hc]

/-- Counterexample to C8: a refresh rescan that rebuilds the profile list
leaves a prior selection in place instead of resetting it to `none`. -/
theorem c8_counterexample :
    (refresh_click envC8 sC8).profiles ≠ sC8.profiles
    ∧ (refresh_click envC8 sC8).selected_profile = some 0
    ∧ some 0 ≠ (none : Option Nat) := by
  exact ⟨by decide, by decide, by decide⟩

/-- Witness for the amended C8: refresh keeps the selection, a
successful directory change clears it. -/
theorem c8_reset_witness :
    (refresh_click envC8 sC8).selected_profile = some 0
    ∧ (apply_directory_change envC2 wEmpty state0).2.selected_profile = none := by
  refine ⟨?_, (c8_amended_selection_reset envC2 wEmpty state0).2 (by decide)⟩
  exact ((c8_amended_selection_reset envC8 wEmpty sC8).1).trans (by decide)

/-- C9: `format_profile_name` is a pure function of its input, and on a
string of space-separated, already-title-cased tokens it is the identity
and hence idempotent. -/
theorem c9_format_pure_and_idempotent (toks : List Chars)
    (h : toks.all titleToken = true) :
    format_profile_name (List.intercalate (chars (" ")) toks)
        = List.intercalate (chars (" ")) toks
    ∧ format_profile_name (format_profile_name (List.intercalate (chars (" ")) toks))
        = format_profile_name (List.intercalate (chars (" ")) toks)
    ∧ ∀ t : Chars, List.intercalate (chars (" ")) toks = t →
        format_profile_name (List.intercalate (chars (" ")) toks)
          = format_profile_name t := by
  rw [List.all_eq_true] at h
  have htok : ∀ w ∈ toks, w ≠ [] ∧ ∀ c ∈ w, c.isWhitespace = false := by
    intro w hw
    have hti := h w hw
    cases w with
    | nil => exact absurd hti (by decide)
    | cons u ls =>
      simp only [titleToken, Bool.and_eq_true, List.all_eq_true] at hti
      refine ⟨by simp, ?_⟩
      intro c hc
      rcases List.mem_cons.mp hc with rfl | hmem
      · exact (char_upper_props hti.1).2.1
      · exact (char_lower_props (hti.2 c hmem)).2.1
  have hrepl : ∀ c ∈ List.intercalate (chars (" ")) toks, c ≠ '_' ∧ c ≠ '-' := by
    intro c hc
    rcases mem_intercalate_space toks c hc with rfl | ⟨w, hw, hcw⟩
    · exact ⟨by decide, by decide⟩
    · have hti := h w hw
      cases w with
      | nil => exact absurd hti (by decide)
      | cons u ls =>
        simp only [titleToken, Bool.and_eq_true, List.all_eq_true] at hti
        rcases List.mem_cons.mp hcw with rfl | hmem
        · exact ⟨(char_upper_props hti.1).2.2.1, (char_upper_props hti.1).2.2.2⟩
        · exact ⟨(char_lower_props (hti.2 c hmem)).2.2.1,
            (char_lower_props (hti.2 c hmem)).2.2.2⟩
  have hfix : format_profile_name (List.intercalate (chars (" ")) toks)
      = List.intercalate (chars (" ")) toks := by
    unfold format_profile_name
    rw [map_id_of_mem _ (fun c hc => if_neg (hrepl c hc).1)]
    rw [map_id_of_mem _ (fun c hc => if_neg (hrepl c hc).2)]
    rw [split_ws_intercalate toks htok]
    rw [map_id_of_mem toks (fun w hw => titleWord_fixed (h w hw))]
  exact ⟨hfix, by rw [hfix, hfix], fun t ht => by rw [← ht]⟩

/-- Witness for C9 at the title-cased input `Alice Bob`. -/
theorem c9_format_witness :
    format_profile_name (List.intercalate (chars (" "))
        [chars ("Alice"), chars ("Bob")])
      = List.intercalate (chars (" ")) [chars ("Alice"), chars ("Bob")] :=
  (c9_format_pure_and_idempotent [chars ("Alice"), chars ("Bob")] (by decide)).1

end Sober
